import Mathlib

/-!
Shallow embedding of the balance bridging core of oracol-node-pos,
frame/dvm/src/account_basic.rs.

The coarse native ledger (Currency) holds u128 balances; a per-account,
per-currency remainder store holds sub-unit value below one coarse unit
(SCALE = POW_9 = 10^9).  The externally visible balance is the composed
256-bit value coarse * SCALE + remainder.  Machine integers are modelled
as Nat with explicit saturation (u128sat) and truncation (low_u128) at
the sites where the source performs the corresponding conversions.
-/

namespace Oracol

/-- Modelled from the spec: the SCALE constant oracol_support::evm::POW_9,
defined outside src; the in-src unit test const_pow_9_should_work pins its
value to 10^9. -/
def POW_9 : Nat := 1000000000

/-- Largest value of the 128-bit balance type. -/
def U128_MAX : Nat := 2 ^ 128 - 1

/-- Number of values of the 256-bit EVM balance type. -/
def U256_SIZE : Nat := 2 ^ 256

/-- Largest value of the 256-bit EVM balance type. -/
def U256_MAX : Nat := 2 ^ 256 - 1

/-- Models the conversion .saturated_into::<u128>() on a nonnegative value. -/
def u128sat (x : Nat) : Nat := min x U128_MAX

/-- Models U256::low_u128: the low 128 bits. -/
def low_u128 (x : Nat) : Nat := x % 2 ^ 128

/-- The two native currencies of the runtime (XOR and OXOR). -/
inductive Cur where
  | xor
  | oxor
deriving DecidableEq

/-- oracol_evm::Account: the externally visible EVM account record. -/
structure EVMAccount where
  nonce : Nat
  balance : Nat
deriving DecidableEq

/-- The externally supplied runtime configuration: the minimum (existential)
balance of each native currency, as read through minimum_balance(). -/
structure Config where
  minXor : Nat
  minOxor : Nat

/-- The mutable store: per-currency Currency free balances, per-currency
remainder store entries (RemainingXorBalance / RemainingOxorBalance, a keyed
map whose entries may be absent), and the frame_system nonces. -/
structure State (α : Type) where
  free : Cur → α → Nat
  remainEntry : Cur → α → Option Nat
  nonce : α → Nat

variable {α : Type} [DecidableEq α]

/-- Point update of the free balance of one currency at one account. -/
def State.setFree (s : State α) (c : Cur) (a : α) (v : Nat) : State α :=
  { s with free := fun c' b => if c' = c ∧ b = a then v else s.free c' b }

/-- Point update of the remainder store entry of one currency at one account. -/
def State.setEntry (s : State α) (c : Cur) (a : α) (v : Option Nat) : State α :=
  { s with remainEntry := fun c' b => if c' = c ∧ b = a then v else s.remainEntry c' b }

/-- RemainBalanceOp::remaining_balance: read the remainder store.  Modelled
from the spec: the storage map declaration lives outside src; spec section 4.2
fixes the read to default to 0 when the entry is absent. -/
def remaining_balance (c : Cur) (s : State α) (a : α) : Nat :=
  (s.remainEntry c a).getD 0

/-- RemainBalanceOp::set_remaining_balance: insert the value. -/
def set_remaining_balance (c : Cur) (s : State α) (a : α) (v : Nat) : State α :=
  s.setEntry c a (some v)

/-- RemainBalanceOp::remove_remaining_balance: remove the entry. -/
def remove_remaining_balance (c : Cur) (s : State α) (a : α) : State α :=
  s.setEntry c a none

/-- RemainBalanceOp::inc_remaining_balance: saturating add then insert. -/
def inc_remaining_balance (c : Cur) (s : State α) (a : α) (v : Nat) : State α :=
  s.setEntry c a (some (min (remaining_balance c s a + v) U128_MAX))

/-- RemainBalanceOp::dec_remaining_balance: saturating subtract then insert
(Nat subtraction is exactly the saturating subtraction). -/
def dec_remaining_balance (c : Cur) (s : State α) (a : α) (v : Nat) : State α :=
  s.setEntry c a (some (remaining_balance c s a - v))

/-- Modelled from the spec: the external Currency slash capability, which
reduces the free balance saturating at zero (spec section 6). -/
def slash (c : Cur) (s : State α) (a : α) (v : Nat) : State α :=
  s.setFree c a (s.free c a - v)

/-- Modelled from the spec: the external Currency deposit_creating capability,
which increases the free balance saturating at the balance maximum
(spec section 6). -/
def deposit_creating (c : Cur) (s : State α) (a : α) (v : Nat) : State α :=
  s.setFree c a (min (s.free c a + v) U128_MAX)

/-- DvmAccountBasic::account_basic (account_basic.rs lines 93-115): read the
coarse balance and the remainder (each saturated into u128), compose
balance * POW_9 + remaining, where the checked_add falls back to the default
value 0 on 256-bit overflow (unwrap_or_default).  The U256 multiplication
balance * POW_9 cannot overflow since balance is u128-saturated. -/
def account_basic (c : Cur) (s : State α) (a : α) : EVMAccount :=
  let balance := u128sat (s.free c a)
  let remaining := u128sat (remaining_balance c s a)
  let final_balance :=
    if balance * POW_9 + remaining < U256_SIZE then balance * POW_9 + remaining else 0
  { nonce := u128sat (s.nonce a), balance := final_balance }

/-- The composed balance an external caller sees for currency c. -/
def composed (c : Cur) (s : State α) (a : α) : Nat :=
  (account_basic c s a).balance

/-- The decrease arm of mutate_account_basic (lines 129-154): diff is the
composed decrease; split diff by div_mod POW_9; if the stored remainder is
smaller than the fractional part, borrow one coarse unit (the saturating add
dvm + POW_9 cannot saturate at U256 since dvm is u128-saturated, and the
saturating subtraction is Nat subtraction). -/
def dec_branch (c : Cur) (s : State α) (a : α) (diff : Nat) : State α :=
  let dvm_balance := u128sat (remaining_balance c s a)
  let diff_balance := diff / POW_9
  let diff_remaining := diff % POW_9
  if dvm_balance < diff_remaining then
    let rb := dvm_balance + POW_9 - diff_remaining
    set_remaining_balance c (slash c s a (low_u128 (diff_balance + 1))) a (low_u128 rb)
  else
    dec_remaining_balance c (slash c s a (low_u128 diff_balance)) a (low_u128 diff_remaining)

/-- The increase arm of mutate_account_basic (lines 155-181): diff is the
composed increase; if the stored remainder plus the fractional part reaches
POW_9, carry one coarse unit into the Currency deposit. -/
def inc_branch (c : Cur) (s : State α) (a : α) (diff : Nat) : State α :=
  let dvm_balance := u128sat (remaining_balance c s a)
  let diff_balance := diff / POW_9
  let diff_remaining := diff % POW_9
  if POW_9 ≤ dvm_balance + diff_remaining then
    let rb := dvm_balance + diff_remaining - POW_9
    set_remaining_balance c (deposit_creating c s a (low_u128 (diff_balance + 1))) a (low_u128 rb)
  else
    inc_remaining_balance c (deposit_creating c s a (low_u128 diff_balance)) a (low_u128 diff_remaining)

/-- The existential deposit condition of mutate_account_basic (lines 195-197):
both composed balances strictly below their thresholds (native minimum,
saturated into u128, times POW_9).  Modelled from the spec:
T::XorAccountBasic and T::OxorAccountBasic are wired in the crate root outside
src; spec section 4.3 step 5 fixes them to the two currency instances of
account_basic. -/
def ed_below (cfg : Config) (s : State α) (a : α) : Prop :=
  (account_basic Cur.xor s a).balance < u128sat cfg.minXor * POW_9 ∧
    (account_basic Cur.oxor s a).balance < u128sat cfg.minOxor * POW_9

instance (cfg : Config) (s : State α) (a : α) : Decidable (ed_below cfg s a) := by
  unfold ed_below
  infer_instance

/-- The existential deposit cleanup of mutate_account_basic (lines 185-204):
if both composed balances are below their thresholds, remove the remainder
entries of both currencies at this account. -/
def ed_cleanup (cfg : Config) (s : State α) (a : α) : State α :=
  if ed_below cfg s a then
    remove_remaining_balance Cur.oxor (remove_remaining_balance Cur.xor s a) a
  else s

/-- The balance mutation of mutate_account_basic (lines 128-183) without the
cleanup step: decrease arm when the new balance is below the current one,
increase arm when above.  Only invoked when the two differ. -/
def mutate_branch (c : Cur) (s : State α) (a : α) (nb : Nat) : State α :=
  let cb := (account_basic c s a).balance
  if nb < cb then dec_branch c s a (cb - nb) else inc_branch c s a (nb - cb)

/-- DvmAccountBasic::mutate_account_basic (lines 118-205).  The source match
arms (current > new, current < new, equal) are mutually exclusive, so testing
equality first is equivalent: on equality return with no write and no cleanup,
otherwise apply the matching arm followed by the cleanup. -/
def mutate_account_basic (c : Cur) (cfg : Config) (s : State α) (a : α)
    (new : EVMAccount) : State α :=
  if new.balance = (account_basic c s a).balance then s
  else ed_cleanup cfg (mutate_branch c s a new.balance) a

/-- evm::ExitError, restricted to the variant this module raises.  The spec
names this failure InsufficientFunds. -/
inductive ExitError where
  | OutOfGas
deriving DecidableEq

/-- DvmAccountBasic::transfer (lines 207-230): ensure the source composed
balance covers the value (else fail before any mutation), debit the source,
then credit the target (the credit saturating at the U256 maximum). -/
def transfer (c : Cur) (cfg : Config) (s : State α) (source target : α)
    (value : Nat) : Except ExitError Unit × State α :=
  let source_account := account_basic c s source
  if source_account.balance < value then (Except.error ExitError.OutOfGas, s)
  else
    let new_source_balance := source_account.balance - value
    let s1 := mutate_account_basic c cfg s source
      { nonce := source_account.nonce, balance := new_source_balance }
    let target_account := account_basic c s1 target
    let new_target_balance := min (target_account.balance + value) U256_MAX
    let s2 := mutate_account_basic c cfg s1 target
      { nonce := target_account.nonce, balance := new_target_balance }
    (Except.ok (), s2)

/-! ### Concrete stores used to instantiate the theorems -/

/-- A store holding coarse balance 5 and remainder POW_9 - 1 for XOR at
account 0, nonce 7 everywhere. -/
def wS : State Nat :=
  { free := fun c a => if c = Cur.xor ∧ a = 0 then 5 else 0,
    remainEntry := fun c a => if c = Cur.xor ∧ a = 0 then some 999999999 else none,
    nonce := fun _ => 7 }

/-- A store holding coarse balance 5 and remainder 0 for XOR at account 0. -/
def wT : State Nat :=
  { free := fun c a => if c = Cur.xor ∧ a = 0 then 5 else 0,
    remainEntry := fun c a => if c = Cur.xor ∧ a = 0 then some 0 else none,
    nonce := fun _ => 0 }

/-- A store with a present remainder entry of 3 for both currencies at
account 0. -/
def wU : State Nat :=
  { free := fun c a => if c = Cur.xor ∧ a = 0 then 5 else 0,
    remainEntry := fun _ a => if a = 0 then some 3 else none,
    nonce := fun _ => 7 }

/-- A store where account 0 holds exactly one coarse XOR unit and account 1
is empty. -/
def wV : State Nat :=
  { free := fun c a => if c = Cur.xor ∧ a = 0 then 1 else 0,
    remainEntry := fun _ _ => none,
    nonce := fun _ => 0 }

/-- A configuration with minimum balance 10 for both currencies. -/
def wCfg : Config := { minXor := 10, minOxor := 10 }

/-- A configuration with minimum balance 0 for both currencies (the cleanup
never fires). -/
def wCfg0 : Config := { minXor := 0, minOxor := 0 }

/-! ### Read-after-write lemmas -/

@[simp] theorem free_setEntry (s : State α) (c c' : Cur) (a b : α) (v : Option Nat) :
    (s.setEntry c a v).free c' b = s.free c' b := rfl

@[simp] theorem nonce_setEntry (s : State α) (c : Cur) (a b : α) (v : Option Nat) :
    (s.setEntry c a v).nonce b = s.nonce b := rfl

@[simp] theorem remainEntry_setFree (s : State α) (c c' : Cur) (a b : α) (v : Nat) :
    (s.setFree c a v).remainEntry c' b = s.remainEntry c' b := rfl

@[simp] theorem nonce_setFree (s : State α) (c : Cur) (a b : α) (v : Nat) :
    (s.setFree c a v).nonce b = s.nonce b := rfl

theorem remainEntry_setEntry (s : State α) (c c' : Cur) (a b : α) (v : Option Nat) :
    (s.setEntry c a v).remainEntry c' b =
      if c' = c ∧ b = a then v else s.remainEntry c' b := rfl

@[simp] theorem remainEntry_setEntry_same (s : State α) (c : Cur) (a : α) (v : Option Nat) :
    (s.setEntry c a v).remainEntry c a = v := by
  simp [State.setEntry]

theorem free_setFree (s : State α) (c c' : Cur) (a b : α) (v : Nat) :
    (s.setFree c a v).free c' b = if c' = c ∧ b = a then v else s.free c' b := rfl

@[simp] theorem free_setFree_same (s : State α) (c : Cur) (a : α) (v : Nat) :
    (s.setFree c a v).free c a = v := by
  simp [State.setFree]

@[simp] theorem remaining_setFree (s : State α) (c c' : Cur) (a b : α) (v : Nat) :
    remaining_balance c' (s.setFree c a v) b = remaining_balance c' s b := rfl

@[simp] theorem remaining_setEntry_same (s : State α) (c : Cur) (a : α) (v : Option Nat) :
    remaining_balance c (s.setEntry c a v) a = v.getD 0 := by
  simp [remaining_balance]

theorem u128sat_eq (x : Nat) (h : x ≤ U128_MAX) : u128sat x = x := min_eq_left h

theorem low_u128_eq (x : Nat) (h : x < 2 ^ 128) : low_u128 x = x := Nat.mod_eq_of_lt h

theorem POW_9_le_U128_MAX : POW_9 ≤ U128_MAX := by norm_num [POW_9, U128_MAX]

theorem POW_9_pos : 0 < POW_9 := by norm_num [POW_9]

/-! ### Arithmetic characterization of the read and the two mutation arms -/

/-- Under the u128 bounds the composed read is exact: the checked_add in
account_basic cannot overflow. -/
theorem composed_eq (c : Cur) (s : State α) (a : α) (hf : s.free c a ≤ U128_MAX)
    (hr : remaining_balance c s a ≤ U128_MAX) :
    composed c s a = s.free c a * POW_9 + remaining_balance c s a := by
  have h : s.free c a * POW_9 + remaining_balance c s a < U256_SIZE := by
    simp only [POW_9, U128_MAX, U256_SIZE] at *
    omega
  simp only [composed, account_basic]
  rw [u128sat_eq _ hf, u128sat_eq _ hr, if_pos h]

/-- Field-level description of the decrease arm: with the remainder invariant
and a decrease bounded by the composed balance, the borrow case slashes
whole + 1 coarse units exactly and sets the remainder to r + POW_9 - frac;
otherwise it slashes whole units and decrements the remainder by frac. -/
theorem dec_branch_spec (c : Cur) (s : State α) (a : α) (diff : Nat)
    (hf : s.free c a ≤ U128_MAX) (hr : remaining_balance c s a < POW_9)
    (hd : diff ≤ s.free c a * POW_9 + remaining_balance c s a) :
    (remaining_balance c s a < diff % POW_9 →
        (dec_branch c s a diff).free c a = s.free c a - (diff / POW_9 + 1) ∧
        diff / POW_9 + 1 ≤ s.free c a ∧
        remaining_balance c (dec_branch c s a diff) a =
          remaining_balance c s a + POW_9 - diff % POW_9) ∧
    (diff % POW_9 ≤ remaining_balance c s a →
        (dec_branch c s a diff).free c a = s.free c a - diff / POW_9 ∧
        diff / POW_9 ≤ s.free c a ∧
        remaining_balance c (dec_branch c s a diff) a =
          remaining_balance c s a - diff % POW_9) := by
  have hrle : remaining_balance c s a ≤ U128_MAX :=
    le_of_lt (lt_of_lt_of_le hr POW_9_le_U128_MAX)
  have hdm := Nat.div_add_mod diff POW_9
  have hfr : diff % POW_9 < POW_9 := Nat.mod_lt _ POW_9_pos
  simp only [dec_branch]
  rw [u128sat_eq _ hrle]
  constructor
  · intro hlt
    have hw1 : diff / POW_9 + 1 ≤ s.free c a := by
      simp only [POW_9] at *
      omega
    have hlow1 : low_u128 (diff / POW_9 + 1) = diff / POW_9 + 1 := by
      apply low_u128_eq
      simp only [POW_9, U128_MAX] at *
      omega
    have hlow2 : low_u128 (remaining_balance c s a + POW_9 - diff % POW_9) =
        remaining_balance c s a + POW_9 - diff % POW_9 := by
      apply low_u128_eq
      simp only [POW_9, U128_MAX] at *
      omega
    rw [if_pos hlt]
    refine ⟨?_, hw1, ?_⟩
    · simp [set_remaining_balance, slash, hlow1]
    · simp [set_remaining_balance, hlow2]
  · intro hge
    have hw : diff / POW_9 ≤ s.free c a := by
      simp only [POW_9] at *
      omega
    have hlow1 : low_u128 (diff / POW_9) = diff / POW_9 := by
      apply low_u128_eq
      simp only [POW_9, U128_MAX] at *
      omega
    have hlow2 : low_u128 (diff % POW_9) = diff % POW_9 := by
      apply low_u128_eq
      simp only [POW_9, U128_MAX] at *
      omega
    rw [if_neg (by omega)]
    refine ⟨?_, hw, ?_⟩
    · simp [dec_remaining_balance, slash, hlow1]
    · simp [dec_remaining_balance, slash, hlow2, remaining_balance]

/-- Field-level description of the increase arm: with the remainder invariant,
the carry case deposits whole + 1 coarse units exactly (given room below the
u128 maximum) and sets the remainder to r + frac - POW_9; otherwise it
deposits whole units and increments the remainder by frac. -/
theorem inc_branch_spec (c : Cur) (s : State α) (a : α) (diff : Nat)
    (hr : remaining_balance c s a < POW_9) :
    (POW_9 ≤ remaining_balance c s a + diff % POW_9 →
      s.free c a + (diff / POW_9 + 1) ≤ U128_MAX →
        (inc_branch c s a diff).free c a = s.free c a + (diff / POW_9 + 1) ∧
        remaining_balance c (inc_branch c s a diff) a =
          remaining_balance c s a + diff % POW_9 - POW_9) ∧
    (remaining_balance c s a + diff % POW_9 < POW_9 →
      s.free c a + diff / POW_9 ≤ U128_MAX →
        (inc_branch c s a diff).free c a = s.free c a + diff / POW_9 ∧
        remaining_balance c (inc_branch c s a diff) a =
          remaining_balance c s a + diff % POW_9) := by
  have hrle : remaining_balance c s a ≤ U128_MAX :=
    le_of_lt (lt_of_lt_of_le hr POW_9_le_U128_MAX)
  have hfr : diff % POW_9 < POW_9 := Nat.mod_lt _ POW_9_pos
  constructor
  · intro hcarry hroom
    have hlow1 : low_u128 (diff / POW_9 + 1) = diff / POW_9 + 1 := by
      apply low_u128_eq
      simp only [POW_9, U128_MAX] at *
      omega
    have hlow2 : low_u128 (remaining_balance c s a + diff % POW_9 - POW_9) =
        remaining_balance c s a + diff % POW_9 - POW_9 := by
      apply low_u128_eq
      simp only [POW_9, U128_MAX] at *
      omega
    have hstep : inc_branch c s a diff =
        set_remaining_balance c (deposit_creating c s a (low_u128 (diff / POW_9 + 1))) a
          (low_u128 (remaining_balance c s a + diff % POW_9 - POW_9)) := by
      simp only [inc_branch]
      rw [u128sat_eq _ hrle, if_pos hcarry]
    constructor
    · rw [hstep]
      simp [set_remaining_balance, deposit_creating, hlow1]
      exact hroom
    · rw [hstep, set_remaining_balance, remaining_setEntry_same, Option.getD_some, hlow2]
  · intro hnc hroom
    have hlow1 : low_u128 (diff / POW_9) = diff / POW_9 := by
      apply low_u128_eq
      simp only [POW_9, U128_MAX] at *
      omega
    have hlow2 : low_u128 (diff % POW_9) = diff % POW_9 := by
      apply low_u128_eq
      simp only [POW_9, U128_MAX] at *
      omega
    have hstep : inc_branch c s a diff =
        inc_remaining_balance c (deposit_creating c s a (low_u128 (diff / POW_9))) a
          (low_u128 (diff % POW_9)) := by
      simp only [inc_branch]
      rw [u128sat_eq _ hrle, if_neg (by omega)]
    constructor
    · rw [hstep]
      simp [inc_remaining_balance, deposit_creating, hlow1]
      exact hroom
    · rw [hstep, hlow2]
      simp [inc_remaining_balance, deposit_creating]
      simp only [POW_9, U128_MAX] at *
      omega

/-- Conservation and invariant preservation of the balance mutation before
cleanup: under the remainder invariant and the u128 bound, for a requested
balance below 2^128 * POW_9 (the no-clamp domain), the mutated coarse and
remainder fields recompose exactly to the requested balance, keep the u128
bound and keep the remainder invariant. -/
theorem mutate_branch_spec (c : Cur) (s : State α) (a : α) (nb : Nat)
    (hf : s.free c a ≤ U128_MAX) (hr : remaining_balance c s a < POW_9)
    (hnb : nb < 2 ^ 128 * POW_9) :
    (mutate_branch c s a nb).free c a * POW_9 +
        remaining_balance c (mutate_branch c s a nb) a = nb ∧
    (mutate_branch c s a nb).free c a ≤ U128_MAX ∧
    remaining_balance c (mutate_branch c s a nb) a < POW_9 := by
  have hrle : remaining_balance c s a ≤ U128_MAX :=
    le_of_lt (lt_of_lt_of_le hr POW_9_le_U128_MAX)
  have hcb : (account_basic c s a).balance =
      s.free c a * POW_9 + remaining_balance c s a := composed_eq c s a hf hrle
  simp only [mutate_branch, hcb]
  by_cases hlt : nb < s.free c a * POW_9 + remaining_balance c s a
  · rw [if_pos hlt]
    have hd : s.free c a * POW_9 + remaining_balance c s a - nb ≤
        s.free c a * POW_9 + remaining_balance c s a := by omega
    have hspec := dec_branch_spec c s a
      (s.free c a * POW_9 + remaining_balance c s a - nb) hf hr hd
    have hdm := Nat.div_add_mod (s.free c a * POW_9 + remaining_balance c s a - nb) POW_9
    have hfr : (s.free c a * POW_9 + remaining_balance c s a - nb) % POW_9 < POW_9 :=
      Nat.mod_lt _ POW_9_pos
    by_cases hbr : remaining_balance c s a <
        (s.free c a * POW_9 + remaining_balance c s a - nb) % POW_9
    · obtain ⟨h1, h2, h3⟩ := hspec.1 hbr
      rw [h1, h3]
      refine ⟨?_, ?_, ?_⟩ <;> · simp only [POW_9, U128_MAX] at *; omega
    · obtain ⟨h1, h2, h3⟩ := hspec.2 (by omega)
      rw [h1, h3]
      refine ⟨?_, ?_, ?_⟩ <;> · simp only [POW_9, U128_MAX] at *; omega
  · rw [if_neg hlt]
    have hspec := inc_branch_spec c s a (nb - (s.free c a * POW_9 + remaining_balance c s a)) hr
    have hdm := Nat.div_add_mod (nb - (s.free c a * POW_9 + remaining_balance c s a)) POW_9
    have hfr : (nb - (s.free c a * POW_9 + remaining_balance c s a)) % POW_9 < POW_9 :=
      Nat.mod_lt _ POW_9_pos
    by_cases hcar : POW_9 ≤ remaining_balance c s a +
        (nb - (s.free c a * POW_9 + remaining_balance c s a)) % POW_9
    · have hroom : s.free c a +
          ((nb - (s.free c a * POW_9 + remaining_balance c s a)) / POW_9 + 1) ≤ U128_MAX := by
        simp only [POW_9, U128_MAX] at *
        omega
      obtain ⟨h1, h2⟩ := hspec.1 hcar hroom
      rw [h1, h2]
      refine ⟨?_, hroom, ?_⟩ <;> · simp only [POW_9, U128_MAX] at *; omega
    · have hroom : s.free c a +
          (nb - (s.free c a * POW_9 + remaining_balance c s a)) / POW_9 ≤ U128_MAX := by
        simp only [POW_9, U128_MAX] at *
        omega
      obtain ⟨h1, h2⟩ := hspec.2 (by omega) hroom
      rw [h1, h2]
      refine ⟨?_, hroom, ?_⟩ <;> · simp only [POW_9, U128_MAX] at *; omega

theorem State.nonce_ite (P : Prop) [Decidable P] (s t : State α) (b : α) :
    (if P then s else t).nonce b = if P then s.nonce b else t.nonce b := by
  split_ifs <;> rfl

theorem State.free_ite (P : Prop) [Decidable P] (s t : State α) (c : Cur) (b : α) :
    (if P then s else t).free c b = if P then s.free c b else t.free c b := by
  split_ifs <;> rfl

theorem State.remainEntry_ite (P : Prop) [Decidable P] (s t : State α) (c : Cur) (b : α) :
    (if P then s else t).remainEntry c b = if P then s.remainEntry c b else t.remainEntry c b := by
  split_ifs <;> rfl

/-- mutate_account_basic never touches the nonce store, and touches no field
of any account other than the mutated one. -/
theorem mutate_frame (c : Cur) (cfg : Config) (s : State α) (a : α) (new : EVMAccount) :
    (∀ b, (mutate_account_basic c cfg s a new).nonce b = s.nonce b) ∧
    (∀ c' b, b ≠ a →
      (mutate_account_basic c cfg s a new).free c' b = s.free c' b ∧
      (mutate_account_basic c cfg s a new).remainEntry c' b = s.remainEntry c' b) := by
  constructor
  · intro b
    simp [mutate_account_basic, ed_cleanup, mutate_branch, dec_branch, inc_branch,
      remove_remaining_balance, set_remaining_balance, dec_remaining_balance,
      inc_remaining_balance, slash, deposit_creating, State.nonce_ite]
  · intro c' b hb
    constructor
    · simp [mutate_account_basic, ed_cleanup, mutate_branch, dec_branch, inc_branch,
        remove_remaining_balance, set_remaining_balance, dec_remaining_balance,
        inc_remaining_balance, slash, deposit_creating, State.free_ite,
        State.setFree, hb]
    · simp [mutate_account_basic, ed_cleanup, mutate_branch, dec_branch, inc_branch,
        remove_remaining_balance, set_remaining_balance, dec_remaining_balance,
        inc_remaining_balance, slash, deposit_creating, State.remainEntry_ite,
        State.setEntry, hb]

/-- When the cleanup does not fire, a mutation to a requested balance in the
no-clamp domain makes the composed balance exactly the requested balance and
preserves the two invariants. -/
theorem mutate_composed (c : Cur) (cfg : Config) (s : State α) (a : α) (new : EVMAccount)
    (hf : s.free c a ≤ U128_MAX) (hr : remaining_balance c s a < POW_9)
    (hnb : new.balance < 2 ^ 128 * POW_9)
    (hcl : ¬ ed_below cfg (mutate_branch c s a new.balance) a) :
    composed c (mutate_account_basic c cfg s a new) a = new.balance ∧
    (mutate_account_basic c cfg s a new).free c a ≤ U128_MAX ∧
    remaining_balance c (mutate_account_basic c cfg s a new) a < POW_9 := by
  have hrle : remaining_balance c s a ≤ U128_MAX :=
    le_of_lt (lt_of_lt_of_le hr POW_9_le_U128_MAX)
  unfold mutate_account_basic
  by_cases heq : new.balance = (account_basic c s a).balance
  · rw [if_pos heq]
    exact ⟨heq.symm, hf, hr⟩
  · rw [if_neg heq]
    unfold ed_cleanup
    rw [if_neg hcl]
    obtain ⟨h1, h2, h3⟩ := mutate_branch_spec c s a new.balance hf hr hnb
    have h2le : remaining_balance c (mutate_branch c s a new.balance) a ≤ U128_MAX :=
      le_of_lt (lt_of_lt_of_le h3 POW_9_le_U128_MAX)
    refine ⟨?_, h2, h3⟩
    rw [composed_eq c _ a h2 h2le, h1]

/-- The composed read only depends on the coarse and remainder fields of the
given currency at the given account. -/
theorem composed_congr (c : Cur) (s s' : State α) (a : α)
    (h1 : s'.free c a = s.free c a) (h2 : s'.remainEntry c a = s.remainEntry c a) :
    composed c s' a = composed c s a := by
  simp [composed, account_basic, remaining_balance, h1, h2]

/-- Under the invariants the composed balance sits in the no-clamp domain. -/
theorem composed_lt (c : Cur) (s : State α) (a : α) (hf : s.free c a ≤ U128_MAX)
    (hr : remaining_balance c s a < POW_9) : composed c s a < 2 ^ 128 * POW_9 := by
  rw [composed_eq c s a hf (le_of_lt (lt_of_lt_of_le hr POW_9_le_U128_MAX))]
  simp only [POW_9, U128_MAX] at *
  omega

/-- The remainder invariant is preserved by the mutation arms, with no
assumption on the coarse balance. -/
theorem mutate_branch_remainder_bound (c : Cur) (s : State α) (a : α) (nb : Nat)
    (hr : remaining_balance c s a < POW_9) :
    remaining_balance c (mutate_branch c s a nb) a < POW_9 := by
  have hrle : remaining_balance c s a ≤ U128_MAX :=
    le_of_lt (lt_of_lt_of_le hr POW_9_le_U128_MAX)
  simp only [mutate_branch]
  by_cases hlt : nb < (account_basic c s a).balance
  · rw [if_pos hlt]
    generalize (account_basic c s a).balance - nb = diff
    have hfr : diff % POW_9 < POW_9 := Nat.mod_lt _ POW_9_pos
    by_cases hbr : remaining_balance c s a < diff % POW_9
    · have hstep : dec_branch c s a diff =
          set_remaining_balance c (slash c s a (low_u128 (diff / POW_9 + 1))) a
            (low_u128 (remaining_balance c s a + POW_9 - diff % POW_9)) := by
        simp only [dec_branch]
        rw [u128sat_eq _ hrle, if_pos hbr]
      rw [hstep, set_remaining_balance, remaining_setEntry_same, Option.getD_some,
        low_u128_eq]
      · omega
      · simp only [POW_9, U128_MAX] at *
        omega
    · have hstep : dec_branch c s a diff =
          dec_remaining_balance c (slash c s a (low_u128 (diff / POW_9))) a
            (low_u128 (diff % POW_9)) := by
        simp only [dec_branch]
        rw [u128sat_eq _ hrle, if_neg hbr]
      rw [hstep, dec_remaining_balance, remaining_setEntry_same, Option.getD_some, slash,
        remaining_setFree]
      omega
  · rw [if_neg hlt]
    generalize nb - (account_basic c s a).balance = diff
    have hfr : diff % POW_9 < POW_9 := Nat.mod_lt _ POW_9_pos
    by_cases hcar : POW_9 ≤ remaining_balance c s a + diff % POW_9
    · have hstep : inc_branch c s a diff =
          set_remaining_balance c (deposit_creating c s a (low_u128 (diff / POW_9 + 1))) a
            (low_u128 (remaining_balance c s a + diff % POW_9 - POW_9)) := by
        simp only [inc_branch]
        rw [u128sat_eq _ hrle, if_pos hcar]
      rw [hstep, set_remaining_balance, remaining_setEntry_same, Option.getD_some,
        low_u128_eq]
      · omega
      · simp only [POW_9, U128_MAX] at *
        omega
    · have hstep : inc_branch c s a diff =
          inc_remaining_balance c (deposit_creating c s a (low_u128 (diff / POW_9))) a
            (low_u128 (diff % POW_9)) := by
        simp only [inc_branch]
        rw [u128sat_eq _ hrle, if_neg hcar]
      rw [hstep, inc_remaining_balance, remaining_setEntry_same, Option.getD_some,
        deposit_creating, remaining_setFree, low_u128_eq (diff % POW_9)
          (by simp only [POW_9] at *; omega)]
      omega

/-- The mutation arms never touch the remainder entry of the other currency. -/
theorem mutate_branch_other (c c' : Cur) (s : State α) (a b : α) (nb : Nat)
    (hcc : c' ≠ c) :
    (mutate_branch c s a nb).remainEntry c' b = s.remainEntry c' b := by
  simp [mutate_branch, dec_branch, inc_branch, set_remaining_balance,
    dec_remaining_balance, inc_remaining_balance, slash, deposit_creating,
    State.remainEntry_ite, State.setEntry, hcc]

/-! ### The claims -/

/-- Claim C1: conservation.  For a state with remainder in [0, POW_9) and a
requested balance in the no-clamp domain, after the coarse and remainder
mutations of mutate_account_basic (before the cleanup step) the recomposed
value coarse * POW_9 + remainder equals the old composed value minus the
delta on a decrease, and plus the delta on an increase. -/
theorem claim1_conservation (c : Cur) (s : State α) (a : α) (new : EVMAccount)
    (hf : s.free c a ≤ U128_MAX) (hr : remaining_balance c s a < POW_9)
    (hnb : new.balance < 2 ^ 128 * POW_9) :
    (new.balance < composed c s a →
      (mutate_branch c s a new.balance).free c a * POW_9 +
          remaining_balance c (mutate_branch c s a new.balance) a =
        composed c s a - (composed c s a - new.balance)) ∧
    (composed c s a < new.balance →
      (mutate_branch c s a new.balance).free c a * POW_9 +
          remaining_balance c (mutate_branch c s a new.balance) a =
        composed c s a + (new.balance - composed c s a)) := by
  obtain ⟨h1, h2, h3⟩ := mutate_branch_spec c s a new.balance hf hr hnb
  constructor
  · intro hd
    rw [h1]
    omega
  · intro hi
    rw [h1]
    omega

/-- Witness for C1 at a concrete decrease on the store wS. -/
theorem claim1_conservation_witness :
    (mutate_branch Cur.xor wS 0 3000000005).free Cur.xor 0 * POW_9 +
        remaining_balance Cur.xor (mutate_branch Cur.xor wS 0 3000000005) 0 =
      composed Cur.xor wS 0 - (composed Cur.xor wS 0 - 3000000005) :=
  (claim1_conservation Cur.xor wS 0 ⟨0, 3000000005⟩ (by decide) (by decide)
    (by decide)).1 (by decide)

/-- Claim C2: remainder bound invariant.  If the stored remainder of a
currency is in [0, POW_9) before a mutate_account_basic call, it is again in
[0, POW_9) after, through the no-op arm, either mutation arm, and the cleanup
removal. -/
theorem claim2_remainder_bound (c : Cur) (cfg : Config) (s : State α) (a : α)
    (new : EVMAccount) (c' : Cur)
    (h : remaining_balance c' s a < POW_9) :
    remaining_balance c' (mutate_account_basic c cfg s a new) a < POW_9 := by
  unfold mutate_account_basic
  by_cases heq : new.balance = (account_basic c s a).balance
  · rw [if_pos heq]
    exact h
  · rw [if_neg heq]
    unfold ed_cleanup
    by_cases hcl : ed_below cfg (mutate_branch c s a new.balance) a
    · rw [if_pos hcl]
      have hz : remaining_balance c'
          (remove_remaining_balance Cur.oxor
            (remove_remaining_balance Cur.xor (mutate_branch c s a new.balance) a) a) a = 0 := by
        cases c' <;>
          simp [remove_remaining_balance, remaining_balance, State.setEntry]
      rw [hz]
      exact POW_9_pos
    · rw [if_neg hcl]
      by_cases hcc : c' = c
      · subst hcc
        exact mutate_branch_remainder_bound c' s a new.balance h
      · have he : remaining_balance c' (mutate_branch c s a new.balance) a =
            remaining_balance c' s a := by
          unfold remaining_balance
          rw [mutate_branch_other c c' s a a new.balance hcc]
        rw [he]
        exact h

/-- Witness for C2 at a concrete decrease on the store wS. -/
theorem claim2_remainder_bound_witness :
    remaining_balance Cur.xor (mutate_account_basic Cur.xor wCfg wS 0 ⟨0, 123⟩) 0 < POW_9 :=
  claim2_remainder_bound Cur.xor wCfg wS 0 ⟨0, 123⟩ Cur.xor (by decide)

/-- Claim C3: increase and carry correctness.  For an increase by X with
remainder in [0, POW_9) and coarse room for the deposit, if
remainder + X % POW_9 reaches POW_9 the ledger is credited X / POW_9 + 1
units and the remainder becomes remainder + X % POW_9 - POW_9; otherwise the
ledger is credited X / POW_9 units and the remainder becomes
remainder + X % POW_9. -/
theorem claim3_carry_correct (c : Cur) (s : State α) (a : α) (X : Nat)
    (hr : remaining_balance c s a < POW_9)
    (hclamp : s.free c a + (X / POW_9 + 1) ≤ U128_MAX) :
    (POW_9 ≤ remaining_balance c s a + X % POW_9 →
      (inc_branch c s a X).free c a = s.free c a + (X / POW_9 + 1) ∧
      remaining_balance c (inc_branch c s a X) a =
        remaining_balance c s a + X % POW_9 - POW_9) ∧
    (remaining_balance c s a + X % POW_9 < POW_9 →
      (inc_branch c s a X).free c a = s.free c a + X / POW_9 ∧
      remaining_balance c (inc_branch c s a X) a =
        remaining_balance c s a + X % POW_9) := by
  have hspec := inc_branch_spec c s a X hr
  exact ⟨fun h => hspec.1 h hclamp, fun h => hspec.2 h (by omega)⟩

/-- Witness for C3: on wS the remainder is POW_9 - 1 and an increase of 2
carries one unit into the ledger and leaves remainder 1. -/
theorem claim3_carry_correct_witness :
    (inc_branch Cur.xor wS 0 2).free Cur.xor 0 = wS.free Cur.xor 0 + (2 / POW_9 + 1) ∧
    remaining_balance Cur.xor (inc_branch Cur.xor wS 0 2) 0 =
      remaining_balance Cur.xor wS 0 + 2 % POW_9 - POW_9 :=
  (claim3_carry_correct Cur.xor wS 0 2 (by decide) (by decide)).1 (by decide)

/-- Claim C4: decrease and borrow correctness.  For a decrease by X bounded
by the composed balance with remainder in [0, POW_9), if the remainder is
below X % POW_9 the ledger is slashed X / POW_9 + 1 units (exactly, the slash
does not clamp) and the remainder becomes remainder + POW_9 - X % POW_9;
otherwise the ledger is slashed X / POW_9 units and the remainder becomes
remainder - X % POW_9. -/
theorem claim4_borrow_correct (c : Cur) (s : State α) (a : α) (X : Nat)
    (hf : s.free c a ≤ U128_MAX) (hr : remaining_balance c s a < POW_9)
    (hX : X ≤ s.free c a * POW_9 + remaining_balance c s a) :
    (remaining_balance c s a < X % POW_9 →
      (dec_branch c s a X).free c a = s.free c a - (X / POW_9 + 1) ∧
      X / POW_9 + 1 ≤ s.free c a ∧
      remaining_balance c (dec_branch c s a X) a =
        remaining_balance c s a + POW_9 - X % POW_9) ∧
    (X % POW_9 ≤ remaining_balance c s a →
      (dec_branch c s a X).free c a = s.free c a - X / POW_9 ∧
      X / POW_9 ≤ s.free c a ∧
      remaining_balance c (dec_branch c s a X) a =
        remaining_balance c s a - X % POW_9) :=
  dec_branch_spec c s a X hf hr hX

/-- Witness for C4: on wT the remainder is 0 and a decrease of 1 borrows one
unit from the ledger and leaves remainder POW_9 - 1. -/
theorem claim4_borrow_correct_witness :
    (dec_branch Cur.xor wT 0 1).free Cur.xor 0 = wT.free Cur.xor 0 - (1 / POW_9 + 1) ∧
    1 / POW_9 + 1 ≤ wT.free Cur.xor 0 ∧
    remaining_balance Cur.xor (dec_branch Cur.xor wT 0 1) 0 =
      remaining_balance Cur.xor wT 0 + POW_9 - 1 % POW_9 :=
  (claim4_borrow_correct Cur.xor wT 0 1 (by decide) (by decide) (by decide)).1 (by decide)

/-- Claim C5: round-trip no-op.  A mutate_account_basic call whose requested
balance equals the current composed balance returns before any write: the
resulting store is the original store, so neither the Currency ledger nor
either remainder entry is modified. -/
theorem claim5_noop (c : Cur) (cfg : Config) (s : State α) (a : α) (new : EVMAccount)
    (heq : new.balance = composed c s a) :
    mutate_account_basic c cfg s a new = s := by
  simp only [composed] at heq
  unfold mutate_account_basic
  rw [if_pos heq]

/-- Witness for C5: writing back the record read from wS changes nothing. -/
theorem claim5_noop_witness :
    mutate_account_basic Cur.xor wCfg wS 0
      ⟨(account_basic Cur.xor wS 0).nonce, composed Cur.xor wS 0⟩ = wS :=
  claim5_noop Cur.xor wCfg wS 0
    ⟨(account_basic Cur.xor wS 0).nonce, composed Cur.xor wS 0⟩ rfl

/-- Claim C6: cleanup rule.  After a balance-changing mutation, if both
composed balances are below their thresholds both remainder entries of the
account are removed; if at least one is at or above its threshold the store
is exactly the post-mutation store, so both entries are left in place. -/
theorem claim6_cleanup (c : Cur) (cfg : Config) (s : State α) (a : α) (new : EVMAccount)
    (hne : new.balance ≠ composed c s a) :
    (ed_below cfg (mutate_branch c s a new.balance) a →
      (mutate_account_basic c cfg s a new).remainEntry Cur.xor a = none ∧
      (mutate_account_basic c cfg s a new).remainEntry Cur.oxor a = none) ∧
    (¬ ed_below cfg (mutate_branch c s a new.balance) a →
      mutate_account_basic c cfg s a new = mutate_branch c s a new.balance) := by
  simp only [composed] at hne
  unfold mutate_account_basic ed_cleanup
  rw [if_neg hne]
  constructor
  · intro hcl
    rw [if_pos hcl]
    constructor <;> simp [remove_remaining_balance, State.setEntry]
  · intro hcl
    rw [if_neg hcl]

/-- Witness for C6: debiting wT to a dust balance of 2 with minimum balance
10 removes both remainder entries. -/
theorem claim6_cleanup_witness :
    (mutate_account_basic Cur.xor wCfg wT 0 ⟨0, 2⟩).remainEntry Cur.xor 0 = none ∧
    (mutate_account_basic Cur.xor wCfg wT 0 ⟨0, 2⟩).remainEntry Cur.oxor 0 = none :=
  (claim6_cleanup Cur.xor wCfg wT 0 ⟨0, 2⟩ (by decide)).1 (by decide)

/-- Claim C7: transfer error handling.  transfer fails (with the error the
spec names InsufficientFunds) exactly when the composed source balance is
below the requested value, and then the store is untouched; otherwise it
succeeds, and, on distinct accounts under the invariants, with the credited
target balance in the no-clamp domain and with the dust cleanup not firing on
either mutation, the source composed balance drops by the value and the
target composed balance rises by the value. -/
theorem claim7_transfer (c : Cur) (cfg : Config) (s : State α) (src tgt : α) (v : Nat) :
    ((transfer c cfg s src tgt v).1 = Except.error ExitError.OutOfGas ↔
      composed c s src < v) ∧
    (composed c s src < v → (transfer c cfg s src tgt v).2 = s) ∧
    (v ≤ composed c s src → (transfer c cfg s src tgt v).1 = Except.ok ()) ∧
    (src ≠ tgt → v ≤ composed c s src →
      s.free c src ≤ U128_MAX → remaining_balance c s src < POW_9 →
      s.free c tgt ≤ U128_MAX → remaining_balance c s tgt < POW_9 →
      composed c s tgt + v < 2 ^ 128 * POW_9 →
      ¬ ed_below cfg (mutate_branch c s src (composed c s src - v)) src →
      ¬ ed_below cfg
          (mutate_branch c
            (mutate_account_basic c cfg s src
              ⟨(account_basic c s src).nonce, composed c s src - v⟩)
            tgt (composed c s tgt + v)) tgt →
      composed c (transfer c cfg s src tgt v).2 src = composed c s src - v ∧
      composed c (transfer c cfg s src tgt v).2 tgt = composed c s tgt + v) := by
  by_cases hlt : (account_basic c s src).balance < v
  · have ht : transfer c cfg s src tgt v = (Except.error ExitError.OutOfGas, s) := by
      simp only [transfer]
      rw [if_pos hlt]
    rw [ht]
    refine ⟨iff_of_true rfl hlt, fun _ => rfl, ?_, ?_⟩
    · intro hge
      exact absurd hge hlt.not_le
    · intro _ hge
      exact absurd hge hlt.not_le
  · obtain ⟨hok, hsnd⟩ : (transfer c cfg s src tgt v).1 = Except.ok () ∧
        (transfer c cfg s src tgt v).2 =
          mutate_account_basic c cfg
            (mutate_account_basic c cfg s src
              ⟨(account_basic c s src).nonce, (account_basic c s src).balance - v⟩)
            tgt
            ⟨(account_basic c
                (mutate_account_basic c cfg s src
                  ⟨(account_basic c s src).nonce, (account_basic c s src).balance - v⟩)
                tgt).nonce,
              min
                ((account_basic c
                    (mutate_account_basic c cfg s src
                      ⟨(account_basic c s src).nonce, (account_basic c s src).balance - v⟩)
                    tgt).balance + v)
                U256_MAX⟩ := by
      constructor <;> (simp only [transfer]; rw [if_neg hlt])
    refine ⟨iff_of_false (by simp [hok]) hlt, ?_, fun _ => hok, ?_⟩
    · intro h
      exact absurd h hlt
    · intro hst hge hfs hrs hft hrt hnbt hcl1 hcl2
      have hnb1 : (account_basic c s src).balance - v < 2 ^ 128 * POW_9 := by
        have := composed_lt c s src hfs hrs
        simp only [composed] at this
        omega
      have hA := mutate_composed c cfg s src
        ⟨(account_basic c s src).nonce, (account_basic c s src).balance - v⟩
        hfs hrs hnb1 hcl1
      have hF1 := (mutate_frame c cfg s src
        ⟨(account_basic c s src).nonce, (account_basic c s src).balance - v⟩).2
        c tgt (Ne.symm hst)
      have hcomp1 : composed c
          (mutate_account_basic c cfg s src
            ⟨(account_basic c s src).nonce, (account_basic c s src).balance - v⟩) tgt =
          composed c s tgt :=
        composed_congr c s _ tgt hF1.1 hF1.2
      have hrem1 : remaining_balance c
          (mutate_account_basic c cfg s src
            ⟨(account_basic c s src).nonce, (account_basic c s src).balance - v⟩) tgt =
          remaining_balance c s tgt := by
        unfold remaining_balance
        rw [hF1.2]
      have hmin : min
          ((account_basic c
              (mutate_account_basic c cfg s src
                ⟨(account_basic c s src).nonce, (account_basic c s src).balance - v⟩)
              tgt).balance + v) U256_MAX = composed c s tgt + v := by
        rw [show (account_basic c
            (mutate_account_basic c cfg s src
              ⟨(account_basic c s src).nonce, (account_basic c s src).balance - v⟩)
            tgt).balance = composed c s tgt from hcomp1]
        apply min_eq_left
        simp only [POW_9, U256_MAX] at *
        omega
      have hnb2 : min
          ((account_basic c
              (mutate_account_basic c cfg s src
                ⟨(account_basic c s src).nonce, (account_basic c s src).balance - v⟩)
              tgt).balance + v) U256_MAX < 2 ^ 128 * POW_9 := by
        rw [hmin]
        exact hnbt
      have hcl2m : ¬ ed_below cfg
          (mutate_branch c
            (mutate_account_basic c cfg s src
              ⟨(account_basic c s src).nonce, (account_basic c s src).balance - v⟩)
            tgt
            (min
              ((account_basic c
                  (mutate_account_basic c cfg s src
                    ⟨(account_basic c s src).nonce, (account_basic c s src).balance - v⟩)
                  tgt).balance + v) U256_MAX)) tgt := by
        rw [hmin]
        exact hcl2
      have hB := mutate_composed c cfg
        (mutate_account_basic c cfg s src
          ⟨(account_basic c s src).nonce, (account_basic c s src).balance - v⟩)
        tgt
        ⟨(account_basic c
            (mutate_account_basic c cfg s src
              ⟨(account_basic c s src).nonce, (account_basic c s src).balance - v⟩)
            tgt).nonce,
          min
            ((account_basic c
                (mutate_account_basic c cfg s src
                  ⟨(account_basic c s src).nonce, (account_basic c s src).balance - v⟩)
                tgt).balance + v)
            U256_MAX⟩
        (hF1.1 ▸ hft) (hrem1 ▸ hrt) hnb2 hcl2m
      have hF2 := (mutate_frame c cfg
        (mutate_account_basic c cfg s src
          ⟨(account_basic c s src).nonce, (account_basic c s src).balance - v⟩)
        tgt
        ⟨(account_basic c
            (mutate_account_basic c cfg s src
              ⟨(account_basic c s src).nonce, (account_basic c s src).balance - v⟩)
            tgt).nonce,
          min
            ((account_basic c
                (mutate_account_basic c cfg s src
                  ⟨(account_basic c s src).nonce, (account_basic c s src).balance - v⟩)
                tgt).balance + v)
            U256_MAX⟩).2 c src hst
      constructor
      · rw [hsnd]
        exact (composed_congr c _ _ src hF2.1 hF2.2).trans hA.1
      · rw [hsnd]
        exact hB.1.trans hmin

/-- Witness for C7: transferring one whole coarse unit from account 0 to
account 1 on wV with zero minimums moves the composed value exactly. -/
theorem claim7_transfer_witness :
    composed Cur.xor (transfer Cur.xor wCfg0 wV 0 1 1000000000).2 0 =
      composed Cur.xor wV 0 - 1000000000 ∧
    composed Cur.xor (transfer Cur.xor wCfg0 wV 0 1 1000000000).2 1 =
      composed Cur.xor wV 1 + 1000000000 :=
  (claim7_transfer Cur.xor wCfg0 wV 0 1 1000000000).2.2.2 (by decide) (by decide)
    (by decide) (by decide) (by decide) (by decide) (by decide) (by decide) (by decide)

/-- Claim C8: the composed read is exact and the defensive overflow branch of
the checked_add in account_basic is unreachable: for u128-saturated inputs
the sum coarse * POW_9 + remainder always fits in 256 bits, so account_basic
returns it unchanged. -/
theorem claim8_compose (c : Cur) (s : State α) (a : α)
    (hf : s.free c a ≤ U128_MAX) (hr : remaining_balance c s a ≤ U128_MAX) :
    (account_basic c s a).balance = s.free c a * POW_9 + remaining_balance c s a ∧
    s.free c a * POW_9 + remaining_balance c s a < U256_SIZE := by
  refine ⟨composed_eq c s a hf hr, ?_⟩
  simp only [POW_9, U128_MAX, U256_SIZE] at *
  omega

/-- Witness for C8 on the store wS. -/
theorem claim8_compose_witness :
    (account_basic Cur.xor wS 0).balance =
      wS.free Cur.xor 0 * POW_9 + remaining_balance Cur.xor wS 0 ∧
    wS.free Cur.xor 0 * POW_9 + remaining_balance Cur.xor wS 0 < U256_SIZE :=
  claim8_compose Cur.xor wS 0 (by decide) (by decide)

/-- Claim C9: nonce frame condition.  account_basic returns the externally
sourced nonce unchanged, mutate_account_basic never mutates any nonce, and
the nonce field of the record passed to mutate_account_basic has no effect on
the resulting store. -/
theorem claim9_nonce (c : Cur) (cfg : Config) (s : State α) (a : α) (new : EVMAccount)
    (hn : s.nonce a ≤ U128_MAX) :
    (account_basic c s a).nonce = s.nonce a ∧
    (∀ b, (mutate_account_basic c cfg s a new).nonce b = s.nonce b) ∧
    (∀ n1 n2 bal, mutate_account_basic c cfg s a ⟨n1, bal⟩ =
      mutate_account_basic c cfg s a ⟨n2, bal⟩) := by
  refine ⟨?_, (mutate_frame c cfg s a new).1, fun n1 n2 bal => rfl⟩
  simp [account_basic, u128sat_eq _ hn]

/-- Witness for C9 on the store wS. -/
theorem claim9_nonce_witness :
    (account_basic Cur.xor wS 0).nonce = wS.nonce 0 ∧
    (mutate_account_basic Cur.xor wCfg wS 0 ⟨9, 3⟩).nonce 5 = wS.nonce 5 ∧
    mutate_account_basic Cur.xor wCfg wS 0 ⟨1, 3⟩ =
      mutate_account_basic Cur.xor wCfg wS 0 ⟨2, 3⟩ := by
  have h := claim9_nonce Cur.xor wCfg wS 0 ⟨9, 3⟩ (by decide)
  exact ⟨h.1, h.2.1 5, h.2.2 1 2 3⟩

/-- Claim C10: an equal-balance call returns before the cleanup step, so the
remainder entries survive even when both composed balances are already below
their minimum-existence thresholds. -/
theorem claim10_skip_cleanup (c : Cur) (cfg : Config) (s : State α) (a : α)
    (new : EVMAccount) (rx ro : Nat)
    (heq : new.balance = composed c s a)
    (hbelow : ed_below cfg s a)
    (hx : s.remainEntry Cur.xor a = some rx) (ho : s.remainEntry Cur.oxor a = some ro) :
    (mutate_account_basic c cfg s a new).remainEntry Cur.xor a = some rx ∧
    (mutate_account_basic c cfg s a new).remainEntry Cur.oxor a = some ro := by
  simp only [composed] at heq
  unfold mutate_account_basic
  rw [if_pos heq]
  exact ⟨hx, ho⟩

/-- Witness for C10: on wU both composed balances are below the threshold 10
coarse units, yet an equal-balance call keeps both entries. -/
theorem claim10_skip_cleanup_witness :
    (mutate_account_basic Cur.xor wCfg wU 0 ⟨0, 5000000003⟩).remainEntry Cur.xor 0 =
      some 3 ∧
    (mutate_account_basic Cur.xor wCfg wU 0 ⟨0, 5000000003⟩).remainEntry Cur.oxor 0 =
      some 3 :=
  claim10_skip_cleanup Cur.xor wCfg wU 0 ⟨0, 5000000003⟩ 3 3 (by decide) (by decide)
    (by decide) (by decide)

end Oracol
